import Mathlib

/-!
Verification of the core behaviors of the zRadioModern internet-radio add-on.

The relevant Python modules are embedded shallowly:

* `zr_core/player.py` — `AudioPlayer` volume handling, scheduled recordings
  and the recording scheduler loop.  Wall-clock instants (`datetime`) are
  modelled as integers, which preserves the total order and strict/non-strict
  comparisons used by the code.  The scheduler thread is modelled as the
  sequence of actions one poll iteration performs over the player state.
* `zr_core/events.py` — `EventBus.emit` over one event type's subscriber
  list; weak references are modelled by an explicit liveness flag, and a
  callback is identified by an abstract number together with a flag telling
  whether calling it raises.
* `zr_core/api_client.py` — `RadioBrowserAPI._get` retry/failover logic and
  `_rotate_server`; the HTTP layer is modelled by an oracle giving the
  outcome of each attempt.
* `zr_core/database.py` — the favorites table as a list of rows;
  `add_favorite` and `get_favorites` (SQL `MAX`, `ORDER BY "order", name`
  and the `WHERE category_id = ?` restriction are modelled directly).
* `zr_core/plugin_manager.py` — `PluginManager.load_plugin` over the maps
  of discovered plugin classes and loaded plugin instances; a plugin's
  `on_load` behavior is a parameter (returns true, returns false, raises).
-/

namespace ZRadio

/-! ## `zr_core/player.py` — volume -/

/-- Setter of `AudioPlayer.volume`: `self._volume = max(0, min(100, value))`. -/
def volumeSet (value : Int) : Int :=
  max 0 (min 100 value)

/-- One volume-affecting call on the player. -/
inductive VolumeOp
  | assign (value : Int)
  | setPercent (percent : Int)
  | up (step : Int)
  | down (step : Int)

/-- Method `AudioPlayer.volume_up`: `self.volume = min(100, self._volume + step)`
(the assignment goes through the clamping setter) followed by
`return self._volume`. -/
def volume_up (vol step : Int) : Int :=
  volumeSet (min 100 (vol + step))

/-- Method `AudioPlayer.volume_down`: `self.volume = max(0, self._volume - step)`
followed by `return self._volume`. -/
def volume_down (vol step : Int) : Int :=
  volumeSet (max 0 (vol - step))

/-- Effect of one volume call on the stored `_volume`
(`set_volume_percent` just assigns through the setter). -/
def applyVolumeOp (vol : Int) : VolumeOp → Int
  | .assign v => volumeSet v
  | .setPercent p => volumeSet p
  | .up s => volume_up vol s
  | .down s => volume_down vol s

/-- Stored `_volume` after a sequence of volume calls, starting from the
constructor's initial value `self._volume = 50`. -/
def runVolume (ops : List VolumeOp) : Int :=
  ops.foldl applyVolumeOp 50

theorem volumeSet_bounds (v : Int) : 0 ≤ volumeSet v ∧ volumeSet v ≤ 100 := by
  unfold volumeSet
  omega

theorem applyVolumeOp_bounds (vol : Int) (op : VolumeOp) :
    0 ≤ applyVolumeOp vol op ∧ applyVolumeOp vol op ≤ 100 := by
  cases op <;> simp only [applyVolumeOp, volume_up, volume_down, volumeSet] <;> omega

theorem foldl_volume_bounds (ops : List VolumeOp) (vol : Int)
    (h0 : 0 ≤ vol) (h1 : vol ≤ 100) :
    0 ≤ ops.foldl applyVolumeOp vol ∧ ops.foldl applyVolumeOp vol ≤ 100 := by
  induction ops generalizing vol with
  | nil => exact ⟨h0, h1⟩
  | cons op rest ih =>
    have h := applyVolumeOp_bounds vol op
    exact ih (applyVolumeOp vol op) h.1 h.2

/-- C9: the player's volume is always in `[0, 100]`: the setter clamps every
assigned value, any sequence of volume calls keeps the stored volume within
the range, and `volume_up` / `volume_down` return exactly the stored volume
produced by the corresponding call. -/
theorem volume_invariant :
    (∀ v : Int, 0 ≤ volumeSet v ∧ volumeSet v ≤ 100) ∧
    (∀ ops : List VolumeOp, 0 ≤ runVolume ops ∧ runVolume ops ≤ 100) ∧
    (∀ vol step : Int,
      volume_up vol step = applyVolumeOp vol (.up step) ∧
      volume_down vol step = applyVolumeOp vol (.down step)) := by
  refine ⟨volumeSet_bounds, ?_, fun vol step => ⟨rfl, rfl⟩⟩
  intro ops
  exact foldl_volume_bounds ops 50 (by norm_num) (by norm_num)

/-! ## `zr_core/player.py` — scheduled recordings -/

/-- Class `ScheduledRecording`: start/end instants are integers standing for
`datetime` values. A new instance has `active = True`. -/
structure ScheduledRecording where
  station_url : String
  station_name : String
  start_time : Int
  end_time : Int
  output_path : String
  active : Bool
  deriving Repr, DecidableEq

/-- Property `scheduled_recordings`:
`[r for r in self._scheduled_recordings if r.active]`. -/
def scheduled_recordings (recs : List ScheduledRecording) : List ScheduledRecording :=
  recs.filter (·.active)

/-- Method `AudioPlayer.schedule_recording`: rejects `start_time >= end_time` and
`start_time <= now`, otherwise appends a new active `ScheduledRecording`.
Returns the boolean result and the updated `_scheduled_recordings` list. -/
def schedule_recording (now : Int) (recs : List ScheduledRecording)
    (station_url station_name : String) (start_time end_time : Int)
    (output_path : String) : Bool × List ScheduledRecording :=
  if start_time ≥ end_time then
    (false, recs)
  else if start_time ≤ now then
    (false, recs)
  else
    (true, recs ++ [⟨station_url, station_name, start_time, end_time, output_path, true⟩])

/-- C3: `schedule_recording` returns `True` and appends exactly one new active
recording (with the given fields) iff `start_time < end_time` and
`start_time` is strictly in the future; otherwise it returns `False` and the
list is unchanged. -/
theorem schedule_recording_spec (now : Int) (recs : List ScheduledRecording)
    (url name : String) (st et : Int) (out : String) :
    ((schedule_recording now recs url name st et out).1 = true ↔
      st < et ∧ now < st) ∧
    (schedule_recording now recs url name st et out).2 =
      (if st < et ∧ now < st then recs ++ [⟨url, name, st, et, out, true⟩] else recs) := by
  unfold schedule_recording
  constructor
  · split_ifs with h1 h2 <;> simp <;> omega
  · split_ifs with h1 h2 h3 h3 <;> first | rfl | omega

/-- Marking the `n`-th *active* element of the underlying list as inactive:
this is what `active_recordings[index].active = False` does, since the
filtered list holds references into `_scheduled_recordings`. -/
def deactivateActiveNth : List ScheduledRecording → Nat → List ScheduledRecording
  | [], _ => []
  | r :: rs, n =>
    if r.active then
      match n with
      | 0 => { r with active := false } :: rs
      | n + 1 => r :: deactivateActiveNth rs n
    else
      r :: deactivateActiveNth rs n

/-- Method `AudioPlayer.cancel_scheduled_recording`: reads the `scheduled_recordings`
property, checks `0 <= index < len(active_recordings)` and sets the indexed
recording's `active` flag to `False`. -/
def cancel_scheduled_recording (recs : List ScheduledRecording) (index : Int) :
    Bool × List ScheduledRecording :=
  if 0 ≤ index ∧ index < (scheduled_recordings recs).length then
    (true, deactivateActiveNth recs index.toNat)
  else
    (false, recs)

theorem filter_deactivateActiveNth (recs : List ScheduledRecording) (n : Nat)
    (h : n < (scheduled_recordings recs).length) :
    scheduled_recordings (deactivateActiveNth recs n) =
      (scheduled_recordings recs).eraseIdx n := by
  induction recs generalizing n with
  | nil => simp [scheduled_recordings] at h
  | cons r rs ih =>
    cases hr : r.active with
    | true =>
      cases n with
      | zero =>
        simp [scheduled_recordings, deactivateActiveNth, hr, List.filter_cons]
      | succ m =>
        have hm : m < (scheduled_recordings rs).length := by
          have := h
          simp only [scheduled_recordings, List.filter_cons, hr, if_true,
            List.length_cons] at this ⊢
          omega
        have hrec := ih m hm
        simp only [scheduled_recordings, List.filter_cons] at hrec ⊢
        simp [deactivateActiveNth, hr, List.filter_cons, List.eraseIdx_cons_succ, hrec]
    | false =>
      have hm : n < (scheduled_recordings rs).length := by
        have := h
        simp only [scheduled_recordings, List.filter_cons, hr] at this ⊢
        simpa using this
      have hrec := ih n hm
      simp only [scheduled_recordings, List.filter_cons] at hrec ⊢
      simp [deactivateActiveNth, hr, hrec]

/-- C10: `cancel_scheduled_recording index` succeeds iff `0 ≤ index` is below
the number of active recordings; on success the indexed active recording is
deactivated, so the `scheduled_recordings` view loses exactly that entry and
shrinks by one; on failure the underlying list is completely unchanged. -/
theorem cancel_scheduled_recording_spec (recs : List ScheduledRecording) (index : Int) :
    ((cancel_scheduled_recording recs index).1 = true ↔
      0 ≤ index ∧ index < (scheduled_recordings recs).length) ∧
    scheduled_recordings (cancel_scheduled_recording recs index).2 =
      (if 0 ≤ index ∧ index < (scheduled_recordings recs).length then
        (scheduled_recordings recs).eraseIdx index.toNat
      else scheduled_recordings recs) ∧
    ((cancel_scheduled_recording recs index).1 = true →
      (scheduled_recordings (cancel_scheduled_recording recs index).2).length + 1 =
        (scheduled_recordings recs).length) ∧
    ((cancel_scheduled_recording recs index).1 = false →
      (cancel_scheduled_recording recs index).2 = recs) := by
  by_cases h : 0 ≤ index ∧ index < (scheduled_recordings recs).length
  · have hn : index.toNat < (scheduled_recordings recs).length := by omega
    have herase := filter_deactivateActiveNth recs index.toNat hn
    have hc : cancel_scheduled_recording recs index =
        (true, deactivateActiveNth recs index.toNat) := by
      unfold cancel_scheduled_recording
      rw [if_pos h]
    rw [hc, if_pos h]
    refine ⟨by simp [h], herase, ?_, by simp⟩
    intro _
    rw [herase, List.length_eraseIdx_of_lt hn]
    omega
  · have hc : cancel_scheduled_recording recs index = (false, recs) := by
      unfold cancel_scheduled_recording
      rw [if_neg h]
    rw [hc, if_neg h]
    refine ⟨by simp [h], rfl, ?_, fun _ => rfl⟩
    intro hcontra
    simp at hcontra

/-- C10 witness: cancelling index 0 on a one-element active list. -/
theorem cancel_scheduled_recording_spec_witness :
    (cancel_scheduled_recording [⟨"u", "n", 0, 1, "o", true⟩] 0).1 = true ∧
    (scheduled_recordings
      (cancel_scheduled_recording [⟨"u", "n", 0, 1, "o", true⟩] 0).2).length + 1 =
      (scheduled_recordings [⟨"u", "n", 0, 1, "o", true⟩]).length := by
  have h := cancel_scheduled_recording_spec [⟨"u", "n", 0, 1, "o", true⟩] 0
  refine ⟨h.1.mpr ⟨by decide, by decide⟩, h.2.2.1 (h.1.mpr ⟨by decide, by decide⟩)⟩

/-! ## `zr_core/player.py` — the recording scheduler

One iteration of `AudioPlayer._scheduler_loop` reads `self.is_recording` and
`self.recording_file` (backed by the VLC wrapper's `_recording` and
`_record_file`) and walks `self._scheduled_recordings`.  The state changes
made by `start_recording` / `stop_recording` are modelled by their effective
synchronous result: starting sets `is_recording` and the recording file,
stopping clears them. -/

/-- Player recording state read by the scheduler poll. -/
structure RecState where
  is_recording : Bool
  recording_file : String
  deriving Repr, DecidableEq

/-- Observable recorder invocations made by a poll iteration.
`start out url` is `self.start_recording(output_path=out, url=url)`. -/
inductive SchedAction
  | start (output_path station_url : String)
  | stop
  deriving Repr, DecidableEq

/-- Body of the `for recording in self._scheduled_recordings` loop for one
recording: skip inactive ones; inside the window start recording if not
already recording; past `end_time` stop recording if this recording's file is
being recorded, and mark the entry inactive. -/
def pollOne (now : Int) (st : RecState) (r : ScheduledRecording) :
    RecState × ScheduledRecording × List SchedAction :=
  if r.active = false then
    (st, r, [])
  else if r.start_time ≤ now ∧ now < r.end_time then
    if st.is_recording = false then
      (⟨true, r.output_path⟩, r, [.start r.output_path r.station_url])
    else
      (st, r, [])
  else if r.end_time ≤ now then
    if st.is_recording = true ∧ st.recording_file = r.output_path then
      (⟨false, ""⟩, { r with active := false }, [.stop])
    else
      (st, { r with active := false }, [])
  else
    (st, r, [])

/-- The full `for` loop of one scheduler iteration, threading the player
state through the recordings in list order. -/
def pollAll (now : Int) (st : RecState) :
    List ScheduledRecording → RecState × List ScheduledRecording × List SchedAction
  | [] => (st, [], [])
  | r :: rs =>
    let first := pollOne now st r
    let rest := pollAll now first.1 rs
    (rest.1, first.2.1 :: rest.2.1, first.2.2 ++ rest.2.2)

/-- One whole iteration of `_scheduler_loop`'s body: process every scheduled
recording, then purge inactive entries
(`self._scheduled_recordings = [r for r in self._scheduled_recordings if r.active]`). -/
def schedulerPoll (now : Int) (st : RecState) (recs : List ScheduledRecording) :
    RecState × List ScheduledRecording × List SchedAction :=
  let swept := pollAll now st recs
  (swept.1, swept.2.1.filter (·.active), swept.2.2)

/-- C1 counterexample: take the player state with `is_recording = False` but
`recording_file = "out.mp3"` (reachable: the wrapper's `stop_recording`
clears `_recording` but not `_record_file` when the underlying stop raises),
and an active scheduled recording with `output_path = "out.mp3"` whose
`end_time` has passed.  The claim says this poll invokes `stop_recording`
because the current recording file equals the output path; the code invokes
nothing, because it additionally requires `self.is_recording`. -/
theorem scheduler_stop_counterexample :
    (pollOne 10 ⟨false, "out.mp3"⟩ ⟨"u", "n", 0, 5, "out.mp3", true⟩).2.2 = [] ∧
    (pollOne 10 ⟨false, "out.mp3"⟩ ⟨"u", "n", 0, 5, "out.mp3", true⟩).2.2 ≠
      [SchedAction.stop] := by
  constructor
  · rfl
  · intro hcontra
    exact List.noConfusion (Eq.trans rfl hcontra.symm)

/-- C1 (amended: stopping also requires the player to be recording): in one
scheduler poll at time `now`, (1) an active recording whose window contains
`now` causes `start_recording(output_path, station_url)` to be invoked when
the player is not already recording, and stays active; (2) an active
recording with `now >= end_time` is marked inactive, and causes
`stop_recording` to be invoked exactly when the player is recording and the
current `recording_file` equals its `output_path`; (3) after the step every
recording left in the internal list is active. -/
theorem scheduler_poll_spec :
    (∀ (now : Int) (st : RecState) (r : ScheduledRecording),
      r.active = true → r.start_time ≤ now → now < r.end_time →
      st.is_recording = false →
        (pollOne now st r).2.2 = [.start r.output_path r.station_url] ∧
        (pollOne now st r).2.1.active = true) ∧
    (∀ (now : Int) (st : RecState) (r : ScheduledRecording),
      r.active = true → r.end_time ≤ now →
        (pollOne now st r).2.1.active = false ∧
        ((st.is_recording = true ∧ st.recording_file = r.output_path) →
          (pollOne now st r).2.2 = [.stop]) ∧
        (¬(st.is_recording = true ∧ st.recording_file = r.output_path) →
          (pollOne now st r).2.2 = [])) ∧
    (∀ (now : Int) (st : RecState) (recs : List ScheduledRecording)
      (r : ScheduledRecording),
      r ∈ (schedulerPoll now st recs).2.1 → r.active = true) := by
  refine ⟨?_, ?_, ?_⟩
  · intro now st r hact hs he hrec
    unfold pollOne
    rw [if_neg (by simp [hact]), if_pos ⟨hs, he⟩, if_pos hrec]
    exact ⟨rfl, hact⟩
  · intro now st r hact hend
    have hnotwin : ¬(r.start_time ≤ now ∧ now < r.end_time) := by omega
    unfold pollOne
    rw [if_neg (by simp [hact]), if_neg hnotwin, if_pos hend]
    by_cases hrf : st.is_recording = true ∧ st.recording_file = r.output_path
    · rw [if_pos hrf]
      exact ⟨rfl, fun _ => rfl, fun hc => absurd hrf hc⟩
    · rw [if_neg hrf]
      exact ⟨rfl, fun hc => absurd hc hrf, fun _ => rfl⟩
  · intro now st recs r hr
    exact (List.mem_filter.mp hr).2

/-- C1 witness: start inside the window on an idle player; stop and
deactivate past the window while recording that file. -/
theorem scheduler_poll_spec_witness :
    (pollOne 3 ⟨false, ""⟩ ⟨"u", "n", 1, 5, "o", true⟩).2.2 = [.start "o" "u"] ∧
    (pollOne 7 ⟨true, "o"⟩ ⟨"u", "n", 1, 5, "o", true⟩).2.2 = [.stop] ∧
    (pollOne 7 ⟨true, "o"⟩ ⟨"u", "n", 1, 5, "o", true⟩).2.1.active = false := by
  have h := scheduler_poll_spec
  refine ⟨(h.1 3 ⟨false, ""⟩ ⟨"u", "n", 1, 5, "o", true⟩ rfl (by norm_num)
    (by norm_num) rfl).1, ?_, ?_⟩
  · exact (h.2.1 7 ⟨true, "o"⟩ ⟨"u", "n", 1, 5, "o", true⟩ rfl
      (by norm_num)).2.1 ⟨rfl, rfl⟩
  · exact (h.2.1 7 ⟨true, "o"⟩ ⟨"u", "n", 1, 5, "o", true⟩ rfl (by norm_num)).1

/-! ## `zr_core/player.py` — `_scheduler_loop` as a loop trace -/

/-- Actions of the scheduler thread at loop granularity. -/
inductive LoopAction
  | poll
  | sleep (seconds : Nat)
  deriving Repr, DecidableEq

/-- Loop `_scheduler_loop`, fuel-indexed: `flags i` is the value of
`self._scheduler_running` read at the `i`-th `while` test.  Each iteration
performs one poll over the scheduled recordings (the whole `try` body, with
any exception swallowed) and then `time.sleep(10)`.  `none` means the loop
has not exited within `fuel` tests of the flag. -/
def schedulerLoopRun (flags : Nat → Bool) : Nat → Nat → Option (List LoopAction)
  | 0, _ => none
  | fuel + 1, i =>
    if flags i then
      (schedulerLoopRun flags fuel (i + 1)).map
        (fun t => LoopAction.poll :: LoopAction.sleep 10 :: t)
    else
      some []

theorem schedulerLoopRun_shape (flags : Nat → Bool) (n i : Nat)
    (hstop : flags (i + n) = false) (hrun : ∀ k, k < n → flags (i + k) = true) :
    schedulerLoopRun flags (n + 1) i =
      some ((List.replicate n [LoopAction.poll, LoopAction.sleep 10]).flatten) := by
  induction n generalizing i with
  | zero =>
    have : flags i = false := by simpa using hstop
    simp [schedulerLoopRun, this]
  | succ m ih =>
    have hi : flags i = true := hrun 0 (Nat.succ_pos m)
    have hstop' : flags (i + 1 + m) = false := by
      have : i + 1 + m = i + (m + 1) := by omega
      rw [this]
      exact hstop
    have hrun' : ∀ k, k < m → flags (i + 1 + k) = true := by
      intro k hk
      have : i + 1 + k = i + (k + 1) := by omega
      rw [this]
      exact hrun (k + 1) (by omega)
    have heq := ih (i + 1) hstop' hrun'
    conv_lhs => rw [schedulerLoopRun]
    rw [if_pos hi, heq]
    simp [List.replicate_succ]

/-- C2: the scheduler is a 10-second polling loop: while the running flag
reads true the thread performs one poll then sleeps exactly 10 seconds, and
the loop terminates at the first false read — with `n` true reads before the
flag is cleared, the loop exits within `n + 1` tests having performed exactly
`n` poll-sleep iterations. -/
theorem scheduler_loop_spec (flags : Nat → Bool) (n : Nat)
    (hstop : flags n = false) (hrun : ∀ k, k < n → flags k = true) :
    schedulerLoopRun flags (n + 1) 0 =
      some ((List.replicate n [LoopAction.poll, LoopAction.sleep 10]).flatten) := by
  have := schedulerLoopRun_shape flags n 0 (by simpa using hstop)
    (fun k hk => by simpa using hrun k hk)
  simpa using this

/-- C2 witness: a flag that is set for the first two reads produces exactly
two poll/sleep-10 iterations and then the loop exits. -/
theorem scheduler_loop_spec_witness :
    schedulerLoopRun (fun i => decide (i < 2)) 3 0 =
      some ((List.replicate 2 [LoopAction.poll, LoopAction.sleep 10]).flatten) :=
  scheduler_loop_spec (fun i => decide (i < 2)) 2 (by decide)
    (fun k hk => by simp [hk])

/-! ## `zr_core/events.py` — `EventBus` -/

/-- A subscriber entry of `EventBus._subscribers[event_type]`: either a
`StrongRef` wrapper (`weak=False`) or a `weakref.ref` whose referent may have
been collected.  A callback is identified by an abstract number `cb`, with a
flag saying whether calling it raises. -/
inductive SubRef
  | strongRef (cb : Nat) (raises : Bool)
  | weakRef (cb : Nat) (alive : Bool) (raises : Bool)
  deriving Repr, DecidableEq

/-- Calling the reference (`ref()`): a strong wrapper always returns its
callback; a weak reference returns `None` once the referent is collected. -/
def derefSub : SubRef → Option (Nat × Bool)
  | .strongRef cb raises => some (cb, raises)
  | .weakRef cb alive raises => if alive then some (cb, raises) else none

/-- The callbacks of the currently live subscriptions, in list order. -/
def aliveCallbacks (subs : List SubRef) : List Nat :=
  subs.filterMap (fun s => (derefSub s).map Prod.fst)

/-- The `for ref in self._subscribers[event_type]` loop of `EventBus.emit`:
returns `(notified, invocations, alive_refs)`.  A live callback is appended
to `alive_refs` and invoked with the event's `data`; `notified` counts the
invocations that did not raise; a dead reference is skipped. -/
def emitLoop (data : Nat) : List SubRef → Nat × List (Nat × Nat) × List SubRef
  | [] => (0, [], [])
  | ref :: rest =>
    match derefSub ref with
    | none => emitLoop data rest
    | some (cb, raises) =>
      let r := emitLoop data rest
      (if raises then r.1 else r.1 + 1, (cb, data) :: r.2.1, ref :: r.2.2)

/-- Method `EventBus.emit` for one event type: `enabled` is `self._enabled`,
`entry` is `self._subscribers.get(event_type)` (`none` when the type was
never subscribed).  Returns the notified count, the invocation list, and the
event type's subscriber entry after the call. -/
def emit (enabled : Bool) (entry : Option (List SubRef)) (data : Nat) :
    Nat × List (Nat × Nat) × Option (List SubRef) :=
  if enabled = false then
    (0, [], entry)
  else
    match entry with
    | none => (0, [], none)
    | some subs =>
      let r := emitLoop data subs
      (r.1, r.2.1, some r.2.2)

/-- Whether invoking this subscription's callback raises. -/
def subRaises : SubRef → Bool
  | .strongRef _ raises => raises
  | .weakRef _ _ raises => raises

theorem emitLoop_characterization (data : Nat) (subs : List SubRef) :
    (emitLoop data subs).2.1 = (aliveCallbacks subs).map (fun cb => (cb, data)) ∧
    (emitLoop data subs).2.2 = subs.filter (fun s => (derefSub s).isSome) ∧
    (emitLoop data subs).1 =
      (subs.filter (fun s => (derefSub s).isSome && !subRaises s)).length := by
  induction subs with
  | nil => exact ⟨rfl, rfl, rfl⟩
  | cons ref rest ih =>
    cases href : derefSub ref with
    | none =>
      have hnr : ((derefSub ref).isSome && !subRaises ref) = false := by
        simp [href]
      simp only [emitLoop, href, aliveCallbacks, List.filterMap_cons,
        List.filter_cons, Option.map_none', Option.isSome_none, hnr,
        Bool.false_eq_true, if_false]
      exact ⟨ih.1, ih.2.1, ih.2.2⟩
    | some cbr =>
      obtain ⟨cb, raises⟩ := cbr
      have hraises : subRaises ref = raises := by
        cases ref with
        | strongRef c r => simp [derefSub] at href; simp [subRaises, href]
        | weakRef c a r =>
          cases a with
          | true => simp [derefSub] at href; simp [subRaises, href]
          | false => simp [derefSub] at href
      refine ⟨?_, ?_, ?_⟩
      · simp only [emitLoop, href, aliveCallbacks, List.filterMap_cons,
          Option.map_some', List.map_cons]
        exact congrArg _ ih.1
      · simp only [emitLoop, href, List.filter_cons, Option.isSome_some,
          Bool.true_and, if_true]
        exact congrArg _ ih.2.1
      · simp only [emitLoop, href, List.filter_cons, Option.isSome_some,
          Bool.true_and, hraises]
        cases raises with
        | true => simpa using ih.2.2
        | false => simpa using ih.2.2

theorem emitLoop_count_no_raise (data : Nat) (subs : List SubRef)
    (h : ∀ s ∈ subs, subRaises s = false) :
    (emitLoop data subs).1 = (aliveCallbacks subs).length := by
  rw [(emitLoop_characterization data subs).2.2]
  induction subs with
  | nil => rfl
  | cons ref rest ih =>
    have hr : subRaises ref = false := h ref (List.mem_cons_self ref rest)
    have ih' := ih (fun s hs => h s (List.mem_cons_of_mem ref hs))
    simp only [aliveCallbacks, List.filterMap_cons, List.filter_cons, hr] at ih' ⊢
    cases href : derefSub ref with
    | none => simpa [href] using ih'
    | some cbr => simpa [href] using ih'

/-- C5: a synchronous `emit` on an enabled bus invokes each currently live
subscribed callback exactly once with the event's data (in particular every
`weak=False` subscription), returns the number notified — the number of live
subscriptions when no callback raises — and prunes exactly the dead weak
references from the subscriber list; on a disabled bus, or for an event type
with no subscribers, it invokes nothing and returns 0. -/
theorem emit_spec :
    (∀ (entry : Option (List SubRef)) (data : Nat),
      emit false entry data = (0, [], entry)) ∧
    (∀ data : Nat, emit true none data = (0, [], none)) ∧
    (∀ (subs : List SubRef) (data : Nat),
      (emit true (some subs) data).2.1 =
        (aliveCallbacks subs).map (fun cb => (cb, data)) ∧
      (emit true (some subs) data).2.2 =
        some (subs.filter (fun s => (derefSub s).isSome)) ∧
      ((∀ s ∈ subs, subRaises s = false) →
        (emit true (some subs) data).1 = (aliveCallbacks subs).length)) ∧
    (∀ (subs : List SubRef) (data cb : Nat) (raises : Bool),
      SubRef.strongRef cb raises ∈ subs →
      (cb, data) ∈ (emit true (some subs) data).2.1) := by
  refine ⟨fun entry data => rfl, fun data => rfl, ?_, ?_⟩
  · intro subs data
    have h := emitLoop_characterization data subs
    exact ⟨h.1, congrArg some h.2.1, fun hnr => emitLoop_count_no_raise data subs hnr⟩
  · intro subs data cb raises hmem
    have h := (emitLoop_characterization data subs).1
    show (cb, data) ∈ (emitLoop data subs).2.1
    rw [h]
    have : cb ∈ aliveCallbacks subs := by
      unfold aliveCallbacks
      exact List.mem_filterMap.mpr ⟨SubRef.strongRef cb raises, hmem, rfl⟩
    exact List.mem_map.mpr ⟨cb, this, rfl⟩

/-- C5 witness: a strong subscriber and a dead weak subscriber — the strong
one is invoked, the dead one pruned, and one callback is notified. -/
theorem emit_spec_witness :
    (emit true (some [SubRef.strongRef 4 false, SubRef.weakRef 9 false false]) 11).2.1 =
      (aliveCallbacks [SubRef.strongRef 4 false, SubRef.weakRef 9 false false]).map
        (fun cb => (cb, 11)) ∧
    (emit true (some [SubRef.strongRef 4 false, SubRef.weakRef 9 false false]) 11).1 =
      (aliveCallbacks [SubRef.strongRef 4 false, SubRef.weakRef 9 false false]).length ∧
    (4, 11) ∈
      (emit true (some [SubRef.strongRef 4 false, SubRef.weakRef 9 false false]) 11).2.1 := by
  have h := emit_spec
  refine ⟨(h.2.2.1 _ 11).1, (h.2.2.1 _ 11).2.2 ?_, h.2.2.2 _ 11 4 false ?_⟩
  · intro s hs
    rcases List.mem_cons.mp hs with rfl | hs
    · rfl
    · rcases List.mem_cons.mp hs with rfl | hs
      · rfl
      · cases hs
  · exact List.mem_cons_self _ _

/-- C6: the notification order is not determined by the set of
subscriptions: two subscriber lists holding exactly the same subscriptions
(a permutation) make `emit` notify the callbacks in different orders — the
bus notifies in internal list order and gives no ordering guarantee. -/
theorem emit_order_not_guaranteed :
    ∃ (l₁ l₂ : List SubRef) (data : Nat),
      l₁.Perm l₂ ∧
      (emit true (some l₁) data).2.1 ≠ (emit true (some l₂) data).2.1 := by
  refine ⟨[.strongRef 0 false, .strongRef 1 false],
    [.strongRef 1 false, .strongRef 0 false], 0, ?_, ?_⟩
  · exact List.Perm.swap _ _ _
  · decide

/-! ## `zr_core/api_client.py` — `RadioBrowserAPI` -/

/-- Outcome of one HTTP GET attempt: a deserialized JSON value (an abstract
number), an exception carrying an HTTP response with a status code
(`raise_for_status`), or a connection-level exception with no response. -/
inductive Outcome
  | ok (value : Nat)
  | httpErr (status : Nat)
  | connErr
  deriving Repr, DecidableEq

/-- The `should_retry` test of `_get`, minus the `retry_count < 3` bound:
a response with a 5xx status, or any exception with no response
(connection error, timeout, ...), is retryable. -/
def retryableOutcome : Outcome → Bool
  | .ok _ => false
  | .httpErr status => decide (500 ≤ status) && decide (status < 600)
  | .connErr => true

/-- Method `RadioBrowserAPI._get(endpoint, params, retry_count)`: the endpoint and
parameters are fixed over the whole call (each recursive call passes them
unchanged), so the HTTP layer is an `oracle` from the retry counter to the
attempt's outcome, and the server state (of type `σ`) is threaded through a
`rotate` step standing for `_rotate_server`.  On a retryable failure with
`retry_count < 3` the client rotates and retries; otherwise the exception
propagates (`raise`). -/
def apiGet (oracle : Nat → Outcome) (rotate : σ → σ)
    (server : σ) (retry_count : Nat) : σ × Except Outcome Nat :=
  match oracle retry_count with
  | .ok v => (server, .ok v)
  | .httpErr status =>
    if h : retry_count < 3 ∧ retryableOutcome (.httpErr status) = true then
      apiGet oracle rotate (rotate server) (retry_count + 1)
    else
      (server, .error (.httpErr status))
  | .connErr =>
    if h : retry_count < 3 then
      apiGet oracle rotate (rotate server) (retry_count + 1)
    else
      (server, .error .connErr)
termination_by 4 - retry_count
decreasing_by
  · omega
  · omega

/-- Method `RadioBrowserAPI._rotate_server`, applied to the (possibly re-discovered)
list of available servers: when the current base URL is in the list, the new
base is the one at position `(index + 1) % len(servers)`.  When it is not,
the code picks `random.choice(servers)`; that nondeterministic branch is not
modelled (the result is left as `base`), and no claim is settled against it. -/
def rotate_server (servers : List String) (base : String) : String :=
  if base ∈ servers then
    servers.getD ((servers.indexOf base + 1) % servers.length) base
  else
    base

theorem apiGet_step (oracle : Nat → Outcome) (rotate : σ → σ) (server : σ)
    (rc : Nat) (hrc : rc < 3) (hretry : retryableOutcome (oracle rc) = true) :
    apiGet oracle rotate server rc = apiGet oracle rotate (rotate server) (rc + 1) := by
  cases ho : oracle rc with
  | ok v => rw [ho] at hretry; simp [retryableOutcome] at hretry
  | httpErr status =>
    rw [ho] at hretry
    rw [apiGet, ho]
    simp only [hretry, hrc, and_self, dite_true]
  | connErr =>
    rw [apiGet, ho]
    simp only [hrc, dite_true]

theorem apiGet_exhausted (oracle : Nat → Outcome) (rotate : σ → σ) (server : σ)
    (hretry : retryableOutcome (oracle 3) = true) :
    apiGet oracle rotate server 3 = (server, .error (oracle 3)) := by
  cases ho : oracle 3 with
  | ok v => rw [ho] at hretry; simp [retryableOutcome] at hretry
  | httpErr status =>
    rw [apiGet, ho]
    simp
  | connErr =>
    rw [apiGet, ho]
    simp

/-- C4: `_get` retries on a server error (HTTP 5xx) or a connection-level
error, rotating servers between attempts, for at most 3 retries before the
exception propagates; a success returns immediately; a failure carrying a
non-5xx response propagates immediately with no rotation; and when the
current server is in the available list, `_rotate_server` moves to position
`(index + 1) mod len` — which is again a member of the list. -/
theorem api_get_failover_spec :
    (∀ (oracle : Nat → Outcome) (rotate : String → String) (server : String)
      (v : Nat), oracle 0 = .ok v →
        apiGet oracle rotate server 0 = (server, .ok v)) ∧
    (∀ (oracle : Nat → Outcome) (rotate : String → String) (server : String)
      (status : Nat), oracle 0 = .httpErr status → ¬(500 ≤ status ∧ status < 600) →
        apiGet oracle rotate server 0 = (server, .error (.httpErr status))) ∧
    (∀ (oracle : Nat → Outcome) (rotate : String → String) (server : String)
      (rc : Nat), rc < 3 → retryableOutcome (oracle rc) = true →
        apiGet oracle rotate server rc = apiGet oracle rotate (rotate server) (rc + 1)) ∧
    (∀ (oracle : Nat → Outcome) (rotate : String → String) (server : String),
      (∀ k, k ≤ 3 → retryableOutcome (oracle k) = true) →
        apiGet oracle rotate server 0 =
          (rotate (rotate (rotate server)), .error (oracle 3))) ∧
    (∀ (servers : List String) (base : String), base ∈ servers →
      rotate_server servers base =
        servers.getD ((servers.indexOf base + 1) % servers.length) base ∧
      rotate_server servers base ∈ servers) := by
  refine ⟨?_, ?_, fun o r s rc h1 h2 => apiGet_step o r s rc h1 h2, ?_, ?_⟩
  · intro oracle rotate server v h0
    rw [apiGet, h0]
  · intro oracle rotate server status h0 hst
    have : retryableOutcome (.httpErr status) = false := by
      simp only [retryableOutcome, Bool.and_eq_true, decide_eq_true_eq]
      rw [Bool.eq_false_iff]
      intro hc
      exact hst ⟨(Bool.and_eq_true _ _ |>.mp hc).1 |> of_decide_eq_true,
        (Bool.and_eq_true _ _ |>.mp hc).2 |> of_decide_eq_true⟩
    rw [apiGet, h0]
    simp only [this, Bool.false_eq_true, and_false, dite_false]
  · intro oracle rotate server hall
    rw [apiGet_step oracle rotate server 0 (by omega) (hall 0 (by omega)),
      apiGet_step oracle rotate _ 1 (by omega) (hall 1 (by omega)),
      apiGet_step oracle rotate _ 2 (by omega) (hall 2 (by omega)),
      apiGet_exhausted oracle rotate _ (hall 3 (by omega))]
  · intro servers base hb
    have hlen : 0 < servers.length := List.length_pos.mpr (List.ne_nil_of_mem hb)
    have hidx : (servers.indexOf base + 1) % servers.length < servers.length :=
      Nat.mod_lt _ hlen
    refine ⟨by rw [rotate_server, if_pos hb], ?_⟩
    rw [rotate_server, if_pos hb, List.getD_eq_getElem?_getD,
      List.getElem?_eq_getElem hidx]
    exact List.getElem_mem _

/-- C4 witness: a connection error on the first attempt rotates and retries;
a 404 propagates immediately; four straight connection errors exhaust the
3 retries; rotating from `"a"` in `["a", "b"]` yields a member. -/
theorem api_get_failover_spec_witness :
    apiGet (fun k => if k = 0 then .connErr else .ok 7) (fun s => s ++ "x") "a" 0 =
      apiGet (fun k => if k = 0 then .connErr else .ok 7) (fun s => s ++ "x")
        ("a" ++ "x") 1 ∧
    apiGet (fun _ => .httpErr 404) (fun s => s ++ "x") "a" 0 =
      ("a", .error (.httpErr 404)) ∧
    apiGet (fun _ => .connErr) (fun s => s ++ "x") "a" 0 =
      ("a" ++ "x" ++ "x" ++ "x", .error .connErr) ∧
    rotate_server ["a", "b"] "a" ∈ ["a", "b"] := by
  have h := api_get_failover_spec
  refine ⟨h.2.2.1 _ _ "a" 0 (by omega) (by simp [retryableOutcome]), ?_, ?_, ?_⟩
  · exact h.2.1 _ _ "a" 404 rfl (by omega)
  · exact h.2.2.2.1 _ _ "a" (fun k _ => by simp [retryableOutcome])
  · exact (h.2.2.2.2 ["a", "b"] "a" (List.mem_cons_self _ _)).2

/-! ## `zr_core/database.py` — favorites -/

/-- A row of the `favorites` table (the fields the ordering claims use). -/
structure Favorite where
  name : String
  url : String
  category_id : Option Int
  order : Int
  deriving Repr, DecidableEq

/-- Query `SELECT MAX("order") FROM favorites` combined with `(max_order or 0)`:
SQL `MAX` is `NULL` on an empty table, which Python's `or` turns into `0`
(a stored maximum of `0` also maps to `0`, which is the maximum itself). -/
def maxOrder : List Favorite → Int
  | [] => 0
  | f :: fs => fs.foldl (fun m g => max m g.order) f.order

/-- Method `DatabaseManager.add_favorite`: inserts the favorite with
`"order" = (max_order or 0) + 1`. -/
def add_favorite (table : List Favorite) (fav : Favorite) : List Favorite :=
  table ++ [{ fav with order := maxOrder table + 1 }]

/-- The `ORDER BY "order", name` comparison: by `"order"`, then by name. -/
def favRel (a b : Favorite) : Prop :=
  a.order < b.order ∨ (a.order = b.order ∧ a.name ≤ b.name)

instance : DecidableRel favRel := fun a b => by
  unfold favRel
  infer_instance

instance : IsTotal Favorite favRel where
  total a b := by
    unfold favRel
    rcases lt_trichotomy a.order b.order with h | h | h
    · exact .inl (.inl h)
    · rcases le_total a.name b.name with hn | hn
      · exact .inl (.inr ⟨h, hn⟩)
      · exact .inr (.inr ⟨h.symm, hn⟩)
    · exact .inr (.inl h)

instance : IsTrans Favorite favRel where
  trans a b c hab hbc := by
    unfold favRel at *
    rcases hab with hab | ⟨hab, han⟩ <;> rcases hbc with hbc | ⟨hbc, hbn⟩
    · exact .inl (hab.trans hbc)
    · exact .inl (hbc ▸ hab)
    · exact .inl (hab ▸ hbc)
    · exact .inr ⟨hab.trans hbc, han.trans hbn⟩

/-- The `WHERE category_id = ?` restriction (`none` = no restriction). -/
def matchesCategory (category_id : Option Int) (f : Favorite) : Bool :=
  match category_id with
  | none => true
  | some c => decide (f.category_id = some c)

/-- Method `DatabaseManager.get_favorites` (no LIMIT/OFFSET): the rows, restricted
to the given category when one is supplied, ordered by
`ORDER BY "order", name`. -/
def get_favorites (category_id : Option Int) (table : List Favorite) : List Favorite :=
  (table.filter (matchesCategory category_id)).insertionSort favRel

theorem maxOrder_foldl_bounds (fs : List Favorite) (a : Int) :
    a ≤ fs.foldl (fun m g => max m g.order) a ∧
    ∀ g ∈ fs, g.order ≤ fs.foldl (fun m g => max m g.order) a := by
  induction fs generalizing a with
  | nil => simp
  | cons f fs ih =>
    have h := ih (max a f.order)
    refine ⟨le_trans (le_max_left _ _) h.1, ?_⟩
    intro g hg
    rcases List.mem_cons.mp hg with rfl | hg
    · exact le_trans (le_max_right _ _) h.1
    · exact h.2 g hg

theorem mem_order_le_maxOrder (table : List Favorite) (g : Favorite)
    (hg : g ∈ table) : g.order ≤ maxOrder table := by
  cases table with
  | nil => cases hg
  | cons f fs =>
    rcases List.mem_cons.mp hg with rfl | hg
    · exact (maxOrder_foldl_bounds fs g.order).1
    · exact (maxOrder_foldl_bounds fs f.order).2 g hg

theorem orderedInsert_append_single (a x : Favorite) (s : List Favorite)
    (h : favRel a x) :
    (s ++ [x]).orderedInsert favRel a = s.orderedInsert favRel a ++ [x] := by
  induction s with
  | nil => simp [List.orderedInsert, h]
  | cons b s ih =>
    by_cases hab : favRel a b
    · simp [List.orderedInsert, hab]
    · simp [List.orderedInsert, hab, ih]

theorem insertionSort_append_greatest (l : List Favorite) (x : Favorite)
    (h : ∀ g ∈ l, favRel g x) :
    (l ++ [x]).insertionSort favRel = l.insertionSort favRel ++ [x] := by
  induction l with
  | nil => simp
  | cons a l ih =>
    have ha : favRel a x := h a (List.mem_cons_self a l)
    have ih' := ih (fun g hg => h g (List.mem_cons_of_mem a hg))
    show List.orderedInsert favRel a ((l ++ [x]).insertionSort favRel) =
      List.orderedInsert favRel a (l.insertionSort favRel) ++ [x]
    rw [ih']
    exact orderedInsert_append_single a x _ ha

/-- C7: `add_favorite` stores the new favorite with order
`max existing order + 1` (`1` on an empty table), which is strictly greater
than every existing favorite's order, so the new favorite sorts after all of
them; `get_favorites` returns exactly the favorites of the requested
category (all of them when none is given), sorted by `"order"` and then by
name. -/
theorem favorites_order_spec :
    (∀ (table : List Favorite) (fav : Favorite),
      add_favorite table fav = table ++ [{ fav with order := maxOrder table + 1 }]) ∧
    (∀ fav : Favorite, add_favorite [] fav = [{ fav with order := 1 }]) ∧
    (∀ (table : List Favorite) (g : Favorite), g ∈ table →
      g.order < maxOrder table + 1) ∧
    (∀ (category_id : Option Int) (table : List Favorite),
      (get_favorites category_id table).Sorted favRel ∧
      (get_favorites category_id table).Perm
        (table.filter (matchesCategory category_id))) ∧
    (∀ (table : List Favorite) (fav : Favorite),
      get_favorites none (add_favorite table fav) =
        get_favorites none table ++ [{ fav with order := maxOrder table + 1 }]) := by
  refine ⟨fun table fav => rfl, fun fav => rfl, ?_, ?_, ?_⟩
  · intro table g hg
    have := mem_order_le_maxOrder table g hg
    omega
  · intro category_id table
    exact ⟨List.sorted_insertionSort favRel _, List.perm_insertionSort favRel _⟩
  · intro table fav
    unfold get_favorites add_favorite
    have hfilter : ∀ l : List Favorite, l.filter (matchesCategory none) = l := by
      intro l
      simp [matchesCategory]
    rw [hfilter, hfilter]
    apply insertionSort_append_greatest
    intro g hg
    have := mem_order_le_maxOrder table g hg
    exact .inl (by simp only; omega)

/-- C7 witness: a one-row table; the added favorite gets order 2 and sorts
last. -/
theorem favorites_order_spec_witness :
    (⟨"a", "u", none, 1⟩ : Favorite).order <
      maxOrder [⟨"a", "u", none, 1⟩] + 1 ∧
    get_favorites none (add_favorite [⟨"a", "u", none, 1⟩] ⟨"b", "v", none, 0⟩) =
      get_favorites none [⟨"a", "u", none, 1⟩] ++
        [{ (⟨"b", "v", none, 0⟩ : Favorite) with
            order := maxOrder [⟨"a", "u", none, 1⟩] + 1 }] := by
  have h := favorites_order_spec
  exact ⟨h.2.2.1 [⟨"a", "u", none, 1⟩] ⟨"a", "u", none, 1⟩
      (List.mem_cons_self _ _),
    h.2.2.2.2 [⟨"a", "u", none, 1⟩] ⟨"b", "v", none, 0⟩⟩

/-! ## `zr_core/plugin_manager.py` — `PluginManager.load_plugin` -/

/-- How instantiating a discovered plugin class and calling `on_load` goes:
`on_load` returns `True`, returns `False`, or the constructor / `on_load`
raises. -/
inductive LoadOutcome
  | ok
  | fail
  | exn
  deriving Repr, DecidableEq

/-- Enum `PluginState` (`plugin_manager.py`). -/
inductive PluginState
  | UNLOADED
  | LOADED
  | ACTIVE
  | ERROR
  | DISABLED
  deriving Repr, DecidableEq

/-- Events `load_plugin` can emit on the bus. -/
inductive PluginEvent
  | PLUGIN_LOADED (id : String)
  | PLUGIN_ERROR (id : String)
  deriving Repr, DecidableEq

/-- Method `PluginManager.load_plugin`: `plugins` is `self._plugins` (loaded id →
instance state, insertion-ordered), `classes` the ids in
`self._plugin_classes`, `behavior` what instantiating and loading each id
does.  Returns the boolean result, the updated `_plugins`, and the emitted
events. -/
def load_plugin (classes : List String) (behavior : String → LoadOutcome)
    (plugins : List (String × PluginState)) (id : String) :
    Bool × List (String × PluginState) × List PluginEvent :=
  if id ∈ plugins.map Prod.fst then
    (true, plugins, [])
  else if id ∉ classes then
    (false, plugins, [])
  else
    match behavior id with
    | .ok => (true, plugins ++ [(id, .LOADED)], [.PLUGIN_LOADED id])
    | .fail => (false, plugins, [])
    | .exn => (false, plugins, [.PLUGIN_ERROR id])

/-- C8: `load_plugin` returns `True` iff the plugin ends up loaded: an
already-loaded id returns `True` with nothing re-instantiated and no event;
an undiscovered id returns `False`; a fresh id whose `on_load` returns
`True` is registered with state `LOADED` and `PLUGIN_LOADED` is emitted;
`on_load` returning `False` or raising leaves the plugin unregistered and
returns `False` (a raise additionally emits `PLUGIN_ERROR`). -/
theorem load_plugin_spec :
    ∀ (classes : List String) (behavior : String → LoadOutcome)
      (plugins : List (String × PluginState)) (id : String),
      ((load_plugin classes behavior plugins id).1 = true ↔
        id ∈ (load_plugin classes behavior plugins id).2.1.map Prod.fst) ∧
      (id ∈ plugins.map Prod.fst →
        load_plugin classes behavior plugins id = (true, plugins, [])) ∧
      (id ∉ plugins.map Prod.fst → id ∉ classes →
        load_plugin classes behavior plugins id = (false, plugins, [])) ∧
      (id ∉ plugins.map Prod.fst → id ∈ classes → behavior id = .ok →
        load_plugin classes behavior plugins id =
          (true, plugins ++ [(id, .LOADED)], [.PLUGIN_LOADED id])) ∧
      (id ∉ plugins.map Prod.fst → id ∈ classes → behavior id = .fail →
        load_plugin classes behavior plugins id = (false, plugins, [])) ∧
      (id ∉ plugins.map Prod.fst → id ∈ classes → behavior id = .exn →
        load_plugin classes behavior plugins id =
          (false, plugins, [.PLUGIN_ERROR id])) := by
  intro classes behavior plugins id
  by_cases hp : id ∈ plugins.map Prod.fst
  · have hL : load_plugin classes behavior plugins id = (true, plugins, []) := by
      unfold load_plugin
      rw [if_pos hp]
    refine ⟨?_, fun _ => hL, fun hc _ => absurd hp hc, fun hc _ _ => absurd hp hc,
      fun hc _ _ => absurd hp hc, fun hc _ _ => absurd hp hc⟩
    rw [hL]
    simpa using hp
  · by_cases hc : id ∈ classes
    · have hnotnot : ¬ id ∉ classes := fun hcontra => hcontra hc
      cases hb : behavior id with
      | ok =>
        have hL : load_plugin classes behavior plugins id =
            (true, plugins ++ [(id, .LOADED)], [.PLUGIN_LOADED id]) := by
          unfold load_plugin
          rw [if_neg hp, if_neg hnotnot, hb]
        refine ⟨?_, fun hcontra => absurd hcontra hp, fun _ hcontra => absurd hc hcontra,
          fun _ _ _ => hL, fun _ _ hcontra => LoadOutcome.noConfusion hcontra,
          fun _ _ hcontra => LoadOutcome.noConfusion hcontra⟩
        rw [hL]
        simp
      | fail =>
        have hL : load_plugin classes behavior plugins id = (false, plugins, []) := by
          unfold load_plugin
          rw [if_neg hp, if_neg hnotnot, hb]
        refine ⟨?_, fun hcontra => absurd hcontra hp, fun _ hcontra => absurd hc hcontra,
          fun _ _ hcontra => LoadOutcome.noConfusion hcontra, fun _ _ _ => hL,
          fun _ _ hcontra => LoadOutcome.noConfusion hcontra⟩
        rw [hL]
        simp [hp]
      | exn =>
        have hL : load_plugin classes behavior plugins id =
            (false, plugins, [.PLUGIN_ERROR id]) := by
          unfold load_plugin
          rw [if_neg hp, if_neg hnotnot, hb]
        refine ⟨?_, fun hcontra => absurd hcontra hp, fun _ hcontra => absurd hc hcontra,
          fun _ _ hcontra => LoadOutcome.noConfusion hcontra,
          fun _ _ hcontra => LoadOutcome.noConfusion hcontra, fun _ _ _ => hL⟩
        rw [hL]
        simp [hp]
    · have hL : load_plugin classes behavior plugins id = (false, plugins, []) := by
        unfold load_plugin
        rw [if_neg hp, if_pos hc]
      refine ⟨?_, fun hcontra => absurd hcontra hp, fun _ _ => hL,
        fun _ hcontra => absurd hcontra hc, fun _ hcontra => absurd hcontra hc,
        fun _ hcontra => absurd hcontra hc⟩
      rw [hL]
      simp [hp]

/-- C8 witness: loading a fresh discovered plugin whose `on_load` succeeds
registers it as `LOADED` and emits `PLUGIN_LOADED`. -/
theorem load_plugin_spec_witness :
    load_plugin ["p"] (fun _ => .ok) [] "p" =
      (true, [("p", .LOADED)], [.PLUGIN_LOADED "p"]) := by
  have h := (load_plugin_spec ["p"] (fun _ => .ok) [] "p").2.2.2.1
    (by simp) (List.mem_cons_self _ _) rfl
  simpa using h

end ZRadio
